import Mathlib

/-!
Verification development for the moody template engine
(src/moody/parser.py and src/moody/__init__.py).

The Python code is shallowly embedded: every definition below is a direct
translation of the corresponding function or class in src/moody/parser.py.
Python dicts become association lists, the shared output buffer becomes a
list of strings threaded through a pure state, exceptions become an explicit
error type, and Python's own expression evaluator (`eval`) — an external
component from the template engine's point of view — is abstracted as a
parameter mapping an expression's source text and the current variable
mapping to a value or an error message.  Recursion through the template AST
and through the token stream is paced by an explicit fuel argument; running
out of fuel is represented by `none`, distinct from every program outcome.
-/

namespace Moody

/-- The left brace character. -/
def chLB : Char := Char.ofNat 123

/-- The right brace character. -/
def chRB : Char := Char.ofNat 125

/-- Python regex class \s and str.strip whitespace set (ASCII part used by
the engine). -/
def isPySpace (c : Char) : Bool :=
  c = ' ' || c = '\t' || c = '\n' || c = '\r' || c = Char.ofNat 11 || c = Char.ofNat 12

/-- Strip leading and trailing whitespace, as Python str.strip / the
trimming done by the token regex around captured groups. -/
def pyTrim (cs : List Char) : List Char :=
  ((cs.dropWhile isPySpace).reverse.dropWhile isPySpace).reverse

/-- Render-time values.  The engine evaluates arbitrary Python expressions;
the fragment of the Python value universe exercised by the engine itself is
modelled here: None, booleans, integers, strings, lists, and callables from
strings to strings (the shape required of the autoescape hook). -/
inductive Value where
  | none : Value
  | bool : Bool → Value
  | int : Int → Value
  | str : String → Value
  | list : List Value → Value
  | func : (String → String) → Value

/-- Python truthiness for the modelled values. -/
def truthy : Value → Bool
  | .none => false
  | .bool b => b
  | .int n => n ≠ 0
  | .str s => s ≠ ""
  | .list xs => !xs.isEmpty
  | .func _ => true

/-- Python str() for the modelled values.  List printing is not exercised
by any rendering path under verification and is left abstract. -/
def pyStr : Value → String
  | .none => "None"
  | .bool b => if b then "True" else "False"
  | .int n => toString n
  | .str s => s
  | .list _ => "<list>"
  | .func _ => "<function>"

/-- The variable mapping of a Context: a Python dict modelled as an
association list with insertion-order-preserving update. -/
abbrev Params := List (String × Value)

/-- Dictionary lookup, dict.get(key). -/
def pget : Params → String → Option Value
  | [], _ => Option.none
  | (k, v) :: rest, key => if k = key then some v else pget rest key

/-- Dictionary update, dict[key] = value. -/
def pset : Params → String → Value → Params
  | [], key, value => [(key, value)]
  | (k, v) :: rest, key, value =>
    if k = key then (key, value) :: rest else (k, v) :: pset rest key value

/-- Dictionary merge, base.copy() followed by base.update(overrides), as in
Template.render merging default parameters under caller parameters. -/
def pupdate (base : Params) (overrides : Params) : Params :=
  overrides.foldl (fun acc kv => pset acc kv.1 kv.2) base

/-- Exceptions raised by the engine.  synErr models TemplateSyntaxError,
templateErr models TemplateError (message, template name, line number), and
pyErr models every other Python exception by its str() message (ValueError,
NameError, IndexError, UnboundLocalError, TypeError). -/
inductive PErr where
  | synErr : String → PErr
  | templateErr : String → String → Nat → PErr
  | pyErr : String → PErr
deriving DecidableEq

/-- The message str(ex) seen when an exception is re-wrapped. -/
def errMsg : PErr → String
  | .synErr m => m
  | .templateErr m _ _ => m
  | .pyErr m => m

/-- Exception wrapping performed by TemplateFragment._render_to_context and
ParserRun.parse_template_chunk: a TemplateError is re-raised unchanged,
every other exception is wrapped into TemplateError(str(ex), name, lineno). -/
def wrapErr (e : PErr) (name : String) (lineno : Nat) : PErr :=
  match e with
  | .templateErr m n l => .templateErr m n l
  | e => .templateErr (errMsg e) name lineno

/-- RE_NAME first-character class [a-zA-Z_]. -/
def isNameStart (c : Char) : Bool :=
  ('a' ≤ c && c ≤ 'z') || ('A' ≤ c && c ≤ 'Z') || c = '_'

/-- RE_NAME continuation class [a-zA-Z_0-9]. -/
def isNameCont (c : Char) : Bool :=
  isNameStart c || ('0' ≤ c && c ≤ '9')

/-- RE_NAME.match(name): the full identifier grammar [a-zA-Z_][a-zA-Z_0-9]*. -/
def validName (s : String) : Bool :=
  match s.data with
  | [] => false
  | c :: rest => isNameStart c && rest.all isNameCont

/-- The parsed name of a template variable (class Name). -/
structure NameS where
  names : List String
  is_expandable : Bool
deriving DecidableEq

/-- Validation loop at the end of Name.__init__: the first segment failing
RE_NAME raises ValueError. -/
def checkNames (names : List String) (expandable : Bool) : Except PErr NameS :=
  match names.find? (fun n => !(validName n)) with
  | some n =>
    .error (.pyErr ("\x27" ++ n ++ "\x27 is not a valid variable name. Only letters, numbers and undescores are allowed."))
  | Option.none => .ok ⟨names, expandable⟩

/-- str.split(","): split on every comma, keeping empty segments. -/
def splitCommas : List Char → List Char → List String
  | [], acc => [String.mk acc.reverse]
  | ',' :: rest, acc => String.mk acc.reverse :: splitCommas rest []
  | c :: rest, acc => splitCommas rest (c :: acc)

/-- Name.__init__.  With a comma in the text the segments are split and
stripped; the source then runs `if not self.names[-1]: names.pop()`, where
`names` is an unbound name (the list comprehension variable does not leak in
Python 3), so a trailing empty segment raises NameError instead of being
popped.  Without a comma the single segment is kept verbatim. -/
def nameParse (name : String) : Except PErr NameS :=
  if name.data.contains ',' then
    let names := (splitCommas name.data []).map (fun s => String.mk (pyTrim s.data))
    if (names.getLastD "").isEmpty then
      .error (.pyErr "name \x27names\x27 is not defined")
    else
      checkNames names true
  else
    checkNames [name] false

/-- iter(value) for the modelled values: lists iterate their items, strings
iterate their characters; every other modelled value raises TypeError. -/
def iterate : Value → Option (List Value)
  | .list xs => some xs
  | .str s => some (s.data.map (fun c => Value.str (String.mk [c])))
  | _ => Option.none

/-- The expansion loop of Name.set: assign one item per name part in order,
raising ValueError when the iterator is exhausted early, then raise
ValueError when items remain (messages verbatim from the source, including
its typo "Need more that"). -/
def setParts (k : Nat) : List String → List Value → Params → Except PErr Params
  | [], [], p => .ok p
  | [], _ :: _, _ =>
    .error (.pyErr ("Need more that " ++ toString k ++ " values to unpack."))
  | _ :: _, [], _ => .error (.pyErr "Not enough values to unpack.")
  | n :: ns, v :: vs, p => setParts k ns vs (pset p n v)

/-- Name.set: expandable names unpack the value as an iterable into the
context's mapping; a simple name rebinds directly. -/
def nameSet (n : NameS) (p : Params) (value : Value) : Except PErr Params :=
  if n.is_expandable then
    match iterate value with
    | Option.none => .error (.pyErr "object is not iterable")
    | some vs => setParts n.names.length n.names vs p
  else
    .ok (pset p (n.names.headD "") value)

/-- A token produced by tokenize: (STRING | EXPRESSION | MACRO, contents). -/
inductive Tok where
  | str : String → Tok
  | expr : String → Tok
  | mac : String → Tok
deriving DecidableEq

/-- str.splitlines(True): split into lines keeping the terminator, handling
the terminators the engine's templates use (\n, \r\n, \r). -/
def splitLinesKeep : List Char → List Char → List (List Char)
  | [], acc => if acc.isEmpty then [] else [acc.reverse]
  | c :: rest, acc =>
    if c = '\r' then
      match rest with
      | c2 :: rest2 =>
        if c2 = '\n' then (acc.reverse ++ ['\r', '\n']) :: splitLinesKeep rest2 []
        else (acc.reverse ++ ['\r']) :: splitLinesKeep (c2 :: rest2) []
      | [] => (acc.reverse ++ ['\r']) :: splitLinesKeep [] []
    else if c = '\n' then (acc.reverse ++ ['\n']) :: splitLinesKeep rest []
    else splitLinesKeep rest (c :: acc)

/-- Search for the earliest two-character closer c1 c2, collecting the
interior; the regex's interior pieces cannot cross a newline (Python's dot
does not match it), so the search also stops at '\n'.  Returns the interior
and the text after the closer. -/
def splitCloser (c1 c2 : Char) : List Char → Option (List Char × List Char)
  | [] => Option.none
  | [_] => Option.none
  | a :: b :: rest =>
    if a = c1 ∧ b = c2 then some ([], rest)
    else if a = '\n' then Option.none
    else
      match splitCloser c1 c2 (b :: rest) with
      | some (pre, post) => some (a :: pre, post)
      | Option.none => Option.none

/-- Attempt RE_TOKEN at the current position: a comment region (at least
one interior character before the earliest closer, no token emitted), an
expression region, or a tag region (interior trimmed, no token emitted when
the trimmed capture is empty, exactly as the generator's truthiness tests
skip empty captures).  Returns the emitted token, if any, and the rest of
the line after the match. -/
def tryMatch (cs : List Char) : Option (Option Tok × List Char) :=
  match cs with
  | c1 :: c2 :: rest =>
    if c1 = chLB ∧ c2 = '#' then
      match rest with
      | [] => Option.none
      | c3 :: rest2 =>
        if c3 = '\n' then Option.none
        else
          match splitCloser '#' chRB rest2 with
          | some (_, after) => some (Option.none, after)
          | Option.none => Option.none
    else if c1 = chLB ∧ c2 = chLB then
      match splitCloser chRB chRB rest with
      | some (inner, after) =>
        let cap := pyTrim inner
        some (if cap.isEmpty then Option.none else some (Tok.expr (String.mk cap)), after)
      | Option.none => Option.none
    else if c1 = chLB ∧ c2 = '%' then
      match splitCloser '%' chRB rest with
      | some (inner, after) =>
        let cap := pyTrim inner
        some (if cap.isEmpty then Option.none else some (Tok.mac (String.mk cap)), after)
      | Option.none => Option.none
    else Option.none
  | _ => Option.none

/-- One line of tokenize: walk the line with RE_TOKEN.finditer, emitting the
pending literal gap (only when nonempty) before each match and the final
remainder of the line as a STRING token unconditionally.  The fuel is spent
one unit per position; a line's own length is always sufficient. -/
def scanF : Nat → List Char → List Char → List Tok
  | _, [], pending => [Tok.str (String.mk pending.reverse)]
  | 0, _ :: _, _ => []
  | fuel + 1, c :: rest, pending =>
    match tryMatch (c :: rest) with
    | some (tk, after) =>
      (if pending.isEmpty then [] else [Tok.str (String.mk pending.reverse)])
        ++ (match tk with | some t => [t] | Option.none => [])
        ++ scanF fuel after []
    | Option.none => scanF fuel rest (c :: pending)

/-- Scan one line. -/
def scanLine (cs : List Char) : List Tok :=
  scanF cs.length cs []

/-- Number the tokens of successive lines starting at the given line
number. -/
def tkLines : Nat → List (List Char) → List (Nat × Tok)
  | _, [] => []
  | n, l :: rest => (scanLine l).map (fun t => (n, t)) ++ tkLines (n + 1) rest

/-- tokenize: lex the template line by line, numbering lines from 1. -/
def tokenize (cs : List Char) : List (Nat × Tok) :=
  tkLines 1 (splitLinesKeep cs [])

/-- A node in a compiled template.  ExpressionNode and the expressions of
if/for clauses keep the expression's source text; its compiled form and the
semantics of Python eval are supplied at render time by an evaluator
parameter. -/
inductive Node where
  | string : String → Node
  | exprN : String → Node
  | ifN : List (String × List (Nat × Node)) → Option (List (Nat × Node)) → Node
  | forN : NameS → String → List (Nat × Node) → Node

/-- Match of the if_macro pattern if\s+(.+?)$ against a tag's trimmed text:
the keyword, at least one whitespace character, then the nonempty
expression.  Inputs are the whitespace-trimmed captures of tokenize, so the
capture is the remainder after the maximal whitespace run. -/
def matchIf (s : String) : Option String :=
  match s.data with
  | 'i' :: 'f' :: rest =>
    if (rest.takeWhile isPySpace).isEmpty then Option.none
    else
      let body := rest.dropWhile isPySpace
      if body.isEmpty then Option.none else some (String.mk body)
  | _ => Option.none

/-- Match of \s+in\s+(.+?)$ — the separator and expression half of the
for_macro pattern; returns the expression text. -/
def matchInTail (cs : List Char) : Option (List Char) :=
  if (cs.takeWhile isPySpace).isEmpty then Option.none
  else
    match cs.dropWhile isPySpace with
    | 'i' :: 'n' :: rest2 =>
      if (rest2.takeWhile isPySpace).isEmpty then Option.none
      else
        let body := rest2.dropWhile isPySpace
        if body.isEmpty then Option.none else some body
    | _ => Option.none

/-- The lazy group (.+?) of the for_macro pattern: extend the binding-target
text one character at a time until the rest of the tag text matches the
separator-and-expression pattern. -/
def forSplit : List Char → List Char → Option (String × String)
  | _, [] => Option.none
  | acc, c :: rest =>
    match matchInTail rest with
    | some body => some (String.mk (c :: acc).reverse, String.mk body)
    | Option.none => forSplit (c :: acc) rest

/-- Match of the for_macro pattern for\s+(.+?)\s+in\s+(.+?)$ against a
tag's trimmed text, returning the binding-target text and the expression. -/
def matchFor (s : String) : Option (String × String) :=
  match s.data with
  | 'f' :: 'o' :: 'r' :: rest =>
    if (rest.takeWhile isPySpace).isEmpty then Option.none
    else forSplit [] (rest.dropWhile isPySpace)
  | _ => Option.none

/-- The alternatives of RE_IF_CLAUSE. -/
inductive IfTail where
  | elifC : String → IfTail
  | elseC : IfTail
  | endifC : IfTail

/-- RE_IF_CLAUSE: (elif) (.+?)$ | (else)$ | (endif)$ — note the single
literal space after elif. -/
def matchClause (s : String) : Option IfTail :=
  match s.data with
  | 'e' :: 'l' :: 'i' :: 'f' :: ' ' :: rest =>
    if rest.isEmpty then Option.none else some (.elifC (String.mk rest))
  | _ =>
    if s = "else" then some .elseC
    else if s = "endif" then some .endifC
    else Option.none

/-- UnboundLocalError raised by parse_template_chunk when the token stream
is exhausted before the loop variable lineno is ever bound (only possible
for an empty template). -/
def unboundLineno : PErr :=
  .pyErr "local variable \x27lineno\x27 referenced before assignment"

/-- IndexError raised by the final raise of parse_block: its format string
has a positional field but the call passes only the keyword token=..., so
instead of the intended message naming the tag the raise statement itself
fails. -/
def fmtIndexErr : PErr :=
  .pyErr "Replacement index 0 out of range for positional args tuple"

/-- TemplateSyntaxError raised by parse_block at end of input (the source's
format string lacks a percent sign before the closing brace of the end
tag). -/
def blockNotClosed (startTag endTag : String) : PErr :=
  .synErr ("\x7b% " ++ startTag ++ " %\x7d tag could not find a corresponding \x7b% "
    ++ endTag ++ " \x7d.")

/-- Result of a parser step: a parse_template_chunk return value (last
line number, unrecognized tag text if any, nodes, remaining tokens) or a
finished macro node with the remaining tokens. -/
inductive PRes where
  | chunkRes : Nat → Option String → List (Nat × Node) → List (Nat × Tok) → PRes
  | nodeRes : Node → List (Nat × Tok) → PRes

/-- A parser activation: parse_template_chunk with its accumulated nodes
and last-seen line number, or the clause-collecting loop of if_macro with
the pending clause expression, collected clauses, else flag and else
block. -/
inductive PJob where
  | chunk : List (Nat × Node) → Option Nat → PJob
  | ifloop : String → List (String × List (Nat × Node)) → Bool →
      Option (List (Nat × Node)) → PJob

/-- The parser.  Faithful line-by-line model of ParserRun with the default
macro registry (if_macro, for_macro): STRING and EXPRESSION tokens become
nodes directly; a MACRO token is offered to if_macro then for_macro, and an
unrecognized tag ends the chunk; every exception escaping a macro call is
wrapped into TemplateError with the macro token's line number unless it is
already one; for_macro parses its block before constructing the Name;
if_macro assigns each parsed block to the else block or to a clause before
dispatching on which clause tag terminated it. -/
def parseP (name : String) : Nat → PJob → List (Nat × Tok) → Option (Except PErr PRes)
  | 0, _, _ => Option.none
  | _ + 1, .chunk acc lastLn, [] =>
    match lastLn with
    | some l => some (.ok (.chunkRes l Option.none acc.reverse []))
    | Option.none => some (.error unboundLineno)
  | fuel + 1, .chunk acc _, (ln, tk) :: rest =>
    match tk with
    | .str s => parseP name fuel (.chunk ((ln, .string s) :: acc) (some ln)) rest
    | .expr s => parseP name fuel (.chunk ((ln, .exprN s) :: acc) (some ln)) rest
    | .mac s =>
      match matchIf s with
      | some e =>
        match parseP name fuel (.ifloop e [] false Option.none) rest with
        | Option.none => Option.none
        | some (.error er) => some (.error (wrapErr er name ln))
        | some (.ok (.nodeRes nd rest2)) =>
          parseP name fuel (.chunk ((ln, nd) :: acc) (some ln)) rest2
        | some (.ok r) => some (.ok r)
      | Option.none =>
        match matchFor s with
        | some (nm, e) =>
          match parseP name fuel (.chunk [] Option.none) rest with
          | Option.none => Option.none
          | some (.error er) => some (.error (wrapErr er name ln))
          | some (.ok (.chunkRes _ tc nodes rest2)) =>
            match tc with
            | Option.none => some (.error (wrapErr (blockNotClosed "for" "endfor") name ln))
            | some t =>
              if t = "endfor" then
                match nameParse nm with
                | .error er => some (.error (wrapErr er name ln))
                | .ok ns =>
                  parseP name fuel (.chunk ((ln, .forN ns e nodes) :: acc) (some ln)) rest2
              else some (.error (wrapErr fmtIndexErr name ln))
          | some (.ok r) => some (.ok r)
        | Option.none => some (.ok (.chunkRes ln (some s) acc.reverse rest))
  | fuel + 1, .ifloop e clauses elseTag elseBlk, toks =>
    match parseP name fuel (.chunk [] Option.none) toks with
    | Option.none => Option.none
    | some (.error er) => some (.error er)
    | some (.ok (.chunkRes _ tc nodes rest2)) =>
      match tc with
      | Option.none => some (.error (blockNotClosed "if" "endif"))
      | some t =>
        let clauses2 := if elseTag then clauses else clauses ++ [(e, nodes)]
        let elseBlk2 := if elseTag then some nodes else elseBlk
        match matchClause t with
        | some (.elifC e2) =>
          if elseTag then
            some (.error (.synErr "\x7b% elif %\x7d tag cannot come after \x7b% else %\x7d."))
          else parseP name fuel (.ifloop e2 clauses2 elseTag elseBlk2) rest2
        | some .elseC =>
          if elseTag then
            some (.error (.synErr "Only one \x7b% else %\x7d tag is allowed per \x7b% if %\x7d macro."))
          else parseP name fuel (.ifloop e clauses2 true elseBlk2) rest2
        | some .endifC => some (.ok (.nodeRes (.ifN clauses2 elseBlk2) rest2))
        | Option.none => some (.error fmtIndexErr)
    | some (.ok r) => some (.ok r)

/-- A compiled template: its top-level nodes, its name (default "<string>"
in the Python signature) and its default parameters. -/
structure Template where
  nodes : List (Nat × Node)
  name : String
  defaults : Params

/-- Parser.compile with the default macro registry: parse the main chunk;
an unrecognized tag surviving to the top level raises TemplateSyntaxError
(this raise is outside every try block, so it is not wrapped, and its
message carries no line number). -/
def compile (tmpl : List Char) (name : String) (defaults : Params) (fuel : Nat) :
    Option (Except PErr Template) :=
  match parseP name fuel (.chunk [] Option.none) (tokenize tmpl) with
  | Option.none => Option.none
  | some (.error e) => some (.error e)
  | some (.ok (.chunkRes _ tc nodes _)) =>
    match tc with
    | some t => some (.error (.synErr ("\x7b% " ++ t ++ " %\x7d is not a recognized tag.")))
    | Option.none => some (.ok ⟨nodes, name, defaults⟩)
  | some (.ok _) => some (.error (.pyErr "unreachable"))

/-- The render-time state of a Context: the variable mapping and the shared
output buffer (a list of appended strings, read back with str.join). -/
abbrev St := Params × List String

/-- The abstracted Python expression evaluator: from the expression's
source text and the current variable mapping to a value or the message of
the exception eval raised. -/
abbrev Evaluator := String → Params → Except String Value

/-- Call of the autoescape hook autoescape(value): only a callable value
can be applied; calling any other modelled value raises TypeError. -/
def callV (v : Value) (s : String) : Except PErr String :=
  match v with
  | .func f => .ok (f s)
  | _ => .error (.pyErr "object is not callable")

/-- ExpressionNode.render: evaluate the expression, convert the result with
str(), look up the reserved key __autoescape__ in the variable mapping and
apply it when it is truthy, then append to the buffer. -/
def exprRender (ev : Evaluator) (st : St) (src : String) : Except PErr St :=
  match ev src st.1 with
  | .error m => .error (.pyErr m)
  | .ok v =>
    let s := pyStr v
    match pget st.1 "__autoescape__" with
    | some a =>
      if truthy a then
        match callV a s with
        | .error e => .error e
        | .ok s2 => .ok (st.1, st.2 ++ [s2])
      else .ok (st.1, st.2 ++ [s])
    | Option.none => .ok (st.1, st.2 ++ [s])

/-- IfNode.render clause scan: evaluate the clause expressions in order and
return the block of the first truthy one; later clauses are not touched. -/
def firstTruthy (ev : Evaluator) (p : Params) :
    List (String × List (Nat × Node)) → Except PErr (Option (List (Nat × Node)))
  | [] => .ok Option.none
  | (e, blk) :: rest =>
    match ev e p with
    | .error m => .error (.pyErr m)
    | .ok v => if truthy v then .ok (some blk) else firstTruthy ev p rest

/-- A rendering activation: a TemplateFragment._render_to_context over its
remaining nodes, a single Node.render, or the item loop of ForNode.render
over the remaining items. -/
inductive Task where
  | block : List (Nat × Node) → Task
  | one : Node → Task
  | loop : NameS → List Value → List (Nat × Node) → Task

/-- The renderer.  block mirrors TemplateFragment._render_to_context:
each node renders in turn and any non-TemplateError exception is wrapped
with the template name and that node's line number.  one mirrors the render
methods of the node classes; note that ForNode.render binds the loop
variable with self.name.set(context, item) directly on the given context —
it never opens the sub-scope provided by Context.block, so the binding
persists in the enclosing mapping.  loop mirrors its item loop. -/
def exec (ev : Evaluator) (name : String) : Nat → Task → St → Option (Except PErr St)
  | _, .block [], st => some (.ok st)
  | _, .loop _ [] _, st => some (.ok st)
  | 0, _, _ => Option.none
  | fuel + 1, .block ((ln, nd) :: rest), st =>
    match exec ev name fuel (.one nd) st with
    | Option.none => Option.none
    | some (.error e) => some (.error (wrapErr e name ln))
    | some (.ok st2) => exec ev name fuel (.block rest) st2
  | _ + 1, .one (.string v), st => some (.ok (st.1, st.2 ++ [v]))
  | _ + 1, .one (.exprN src), st =>
    match exprRender ev st src with
    | .error e => some (.error e)
    | .ok st2 => some (.ok st2)
  | fuel + 1, .one (.ifN clauses elseBlk), st =>
    match firstTruthy ev st.1 clauses with
    | .error e => some (.error e)
    | .ok (some blk) => exec ev name fuel (.block blk) st
    | .ok Option.none =>
      match elseBlk with
      | some blk => exec ev name fuel (.block blk) st
      | Option.none => some (.ok st)
  | fuel + 1, .one (.forN nm src blk), st =>
    match ev src st.1 with
    | .error m => some (.error (.pyErr m))
    | .ok v =>
      match iterate v with
      | Option.none => some (.error (.pyErr "object is not iterable"))
      | some items => exec ev name fuel (.loop nm items blk) st
  | fuel + 1, .loop nm (item :: items) blk, st =>
    match nameSet nm st.1 item with
    | .error e => some (.error e)
    | .ok p2 =>
      match exec ev name fuel (.block blk) (p2, st.2) with
      | Option.none => Option.none
      | some (.error e) => some (.error e)
      | some (.ok st2) => exec ev name fuel (.loop nm items blk) st2

/-- Context.read: "".join(buffer). -/
def ctxRead (buffer : List String) : String :=
  String.mk ((buffer.map String.data).flatten)

/-- Template.render: merge the default parameters under the caller's
parameters, render into a fresh context with an empty buffer, and read the
buffer back; an exception escapes instead of any partial output. -/
def Template.render (ev : Evaluator) (fuel : Nat) (t : Template) (params : Params) :
    Option (Except PErr String) :=
  match exec ev t.name fuel (.block t.nodes) (pupdate t.defaults params, []) with
  | Option.none => Option.none
  | some (.error e) => some (.error e)
  | some (.ok st) => some (.ok (ctxRead st.2))

/-- moody.render from src/moody/__init__.py: compile with the default
parser and name, then render with the given parameters. -/
def renderString (ev : Evaluator) (tmpl : String) (params : Params)
    (fuel1 fuel2 : Nat) : Option (Except PErr String) :=
  match compile tmpl.data "<string>" [] fuel1 with
  | Option.none => Option.none
  | some (.error e) => some (.error e)
  | some (.ok t) => t.render ev fuel2 params

/-- A concrete instance of the abstracted Python evaluator used to run the
engine on closed inputs: the literals appearing in the test templates plus
plain variable lookup with Python's NameError message. -/
def evA : Evaluator := fun src p =>
  if src = "[1]" then .ok (.list [.int 1])
  else if src = "true" then .ok (.bool true)
  else if src = "false" then .ok (.bool false)
  else
    match pget p src with
    | some v => .ok v
    | Option.none => .error ("name \x27" ++ src ++ "\x27 is not defined")

/-- C1: contrary to the fresh-child-scope reading, ForNode.render calls
self.name.set(context, item) on the context it was handed and never opens
the sub-scope of Context.block (dead code), so the loop variable is bound
in the enclosing mapping and persists after the loop: rendering
"{% for x in [1] %}{{ x }}{% endfor %}{{ x }}" with no parameters succeeds
and produces "11" — the trailing interpolation of x outside the loop sees
the last item instead of failing or being empty — and rendering a loop with
an empty body leaves x bound to the last item in the mapping afterwards. -/
theorem moody_c1_for_scope_leak :
    renderString evA
        "\x7b% for x in [1] %\x7d\x7b\x7b x \x7d\x7d\x7b% endfor %\x7d\x7b\x7b x \x7d\x7d"
        [] 100 100 = some (.ok "11")
    ∧ exec evA "<string>" 100 (.block [(1, .forN ⟨["x"], false⟩ "[1]" [])]) ([], [])
        = some (.ok ([("x", .int 1)], [])) := by
  exact ⟨rfl, rfl⟩

/-- C7: Name.__init__ on a target list with a trailing comma reaches the
statement names.pop() in which the name names is unbound (the intended
receiver was self.names), so instead of trimming the trailing empty segment
it raises NameError; inside a for tag that NameError is wrapped into a
compile-time TemplateError.  Targets without a trailing comma behave as the
claim says: a valid single identifier and a tuple of valid identifiers
construct successfully, and an invalid segment raises ValueError at compile
time. -/
theorem moody_c7_trailing_comma_name_error :
    nameParse "a, b," = .error (.pyErr "name \x27names\x27 is not defined")
    ∧ nameParse "a, b" = .ok ⟨["a", "b"], true⟩
    ∧ nameParse "x" = .ok ⟨["x"], false⟩
    ∧ nameParse "a, 1x" = .error (.pyErr
        "\x271x\x27 is not a valid variable name. Only letters, numbers and undescores are allowed.")
    ∧ compile "\x7b% for a, b, in pairs %\x7dx\x7b% endfor %\x7d".data "<string>" [] 100
        = some (.error (.templateErr "name \x27names\x27 is not defined" "<string>" 1)) := by
  refine ⟨rfl, rfl, rfl, rfl, ?_⟩
  rfl

/-- A line with no match of RE_TOKEN at any position: on such a line the
scanner emits a single STRING token holding the whole line. -/
def noTagL : List Char → Bool
  | [] => true
  | c :: rest => (tryMatch (c :: rest)).isNone && noTagL rest

theorem tryMatch_not_lb {c : Char} (cs : List Char) (h : ¬ c = chLB) :
    tryMatch (c :: cs) = Option.none := by
  cases cs with
  | nil => rfl
  | cons b rest => simp [tryMatch, h]

theorem scanF_noTag :
    ∀ (cs : List Char), noTagL cs = true → ∀ (pending : List Char) (fuel : Nat),
      cs.length ≤ fuel →
      scanF fuel cs pending = [Tok.str (String.mk (pending.reverse ++ cs))]
  | [], _, pending, fuel, _ => by simp [scanF]
  | c :: rest, h, pending, fuel, hf => by
    obtain ⟨f, rfl⟩ : ∃ f, fuel = f + 1 := ⟨fuel - 1, by simp at hf; omega⟩
    simp only [noTagL, Bool.and_eq_true, Option.isNone_iff_eq_none] at h
    rw [scanF, h.1, scanF_noTag rest h.2 (c :: pending) f (by simp at hf; omega)]
    simp

theorem splitLinesKeep_flatten :
    ∀ (cs acc : List Char), (splitLinesKeep cs acc).flatten = acc.reverse ++ cs
  | [], acc => by
    by_cases h : acc.isEmpty
    · simp [splitLinesKeep, h, List.isEmpty_iff.mp h]
    · simp [splitLinesKeep, h]
  | c :: rest, acc => by
    by_cases hr : c = '\r'
    · subst hr
      cases rest with
      | nil => simp [splitLinesKeep]
      | cons c2 rest2 =>
        by_cases hn : c2 = '\n'
        · subst hn
          simp [splitLinesKeep, splitLinesKeep_flatten rest2 []]
        · simp [splitLinesKeep, hn, splitLinesKeep_flatten (c2 :: rest2) []]
    · by_cases hnl : c = '\n'
      · subst hnl
        rw [splitLinesKeep.eq_def]
        simp [hr, splitLinesKeep_flatten rest []]
      · rw [splitLinesKeep.eq_def]
        simp [hr, hnl, splitLinesKeep_flatten rest (c :: acc)]

/-- The tokens of a sequence of literal-only lines: one STRING token per
line, numbered consecutively. -/
def litToks : Nat → List (List Char) → List (Nat × Tok)
  | _, [] => []
  | n, l :: rest => (n, Tok.str (String.mk l)) :: litToks (n + 1) rest

/-- The nodes compiled from a sequence of literal-only lines. -/
def strNodes : Nat → List (List Char) → List (Nat × Node)
  | _, [] => []
  | n, l :: rest => (n, Node.string (String.mk l)) :: strNodes (n + 1) rest

theorem tkLines_lit :
    ∀ (lines : List (List Char)) (n : Nat), (∀ l ∈ lines, noTagL l = true) →
      tkLines n lines = litToks n lines
  | [], _, _ => rfl
  | l :: rest, n, h => by
    have hl := h l (by simp)
    rw [tkLines, litToks, scanLine, scanF_noTag l hl [] l.length (le_refl _),
      tkLines_lit rest (n + 1) (fun x hx => h x (by simp [hx]))]
    simp

theorem parseP_litToks (nm : String) :
    ∀ (lines : List (List Char)) (n : Nat) (acc : List (Nat × Node))
      (lastLn : Option Nat) (fuel : Nat),
      lines.length < fuel → (lines ≠ [] ∨ lastLn.isSome) →
      ∃ L, parseP nm fuel (.chunk acc lastLn) (litToks n lines)
        = some (.ok (.chunkRes L Option.none (acc.reverse ++ strNodes n lines) []))
  | [], n, acc, lastLn, fuel, hf, hne => by
    obtain ⟨f, rfl⟩ : ∃ f, fuel = f + 1 := ⟨fuel - 1, by omega⟩
    obtain ⟨l, rfl⟩ : ∃ l, lastLn = some l := by
      rcases hne with h | h
      · exact absurd rfl h
      · exact ⟨lastLn.get h, (Option.some_get h).symm⟩
    exact ⟨l, by simp [litToks, parseP, strNodes]⟩
  | l :: rest, n, acc, lastLn, fuel, hf, _ => by
    obtain ⟨f, rfl⟩ : ∃ f, fuel = f + 1 := ⟨fuel - 1, by omega⟩
    obtain ⟨L, hL⟩ := parseP_litToks nm rest (n + 1) ((n, Node.string (String.mk l)) :: acc)
      (some n) f (by simp at hf ⊢; omega) (by cases rest <;> simp)
    refine ⟨L, ?_⟩
    rw [litToks, parseP, hL]
    simp [strNodes]

theorem exec_strNodes (ev : Evaluator) (nm : String) :
    ∀ (lines : List (List Char)) (n : Nat) (st : St) (fuel : Nat),
      lines.length < fuel →
      exec ev nm fuel (.block (strNodes n lines)) st
        = some (.ok (st.1, st.2 ++ lines.map String.mk))
  | [], _, st, fuel, _ => by simp [strNodes, exec]
  | l :: rest, n, st, fuel, hf => by
    obtain ⟨f, rfl⟩ : ∃ f, fuel = f + 1 := ⟨fuel - 1, by omega⟩
    obtain ⟨g, rfl⟩ : ∃ g, f = g + 1 := ⟨f - 1, by simp at hf; omega⟩
    have ih := exec_strNodes ev nm rest (n + 1) (st.1, st.2 ++ [String.mk l]) (g + 1)
      (by simp at hf ⊢; omega)
    simp only [strNodes, exec, ih]
    simp

theorem string_mk_data (s : String) : String.mk s.data = s := rfl

/-- C3, counterexample: the empty source is literal-only, yet compiling it
does not return a template rendering "": tokenize yields no token at all,
so parse_template_chunk falls through its loop and evaluates the never
bound loop variable lineno, raising UnboundLocalError. -/
theorem moody_c3_empty_source_error :
    renderString evA "" [] 100 100
      = some (.error (.pyErr "local variable \x27lineno\x27 referenced before assignment")) := by
  rfl

/-- C3, amended: for every nonempty template source in which no line
contains a match of the token pattern (no expression, tag or comment
region), and for every parameter mapping, compiling and rendering returns
the source unchanged, character for character, whatever the expression
evaluator does; the fuel bounds only pace the embedding's recursion. -/
theorem moody_c3_literal_identity (ev : Evaluator) (s : String) (params : Params)
    (f1 f2 : Nat) (hne : s ≠ "")
    (hlit : ∀ l ∈ splitLinesKeep s.data [], noTagL l = true)
    (hf1 : (splitLinesKeep s.data []).length < f1)
    (hf2 : (splitLinesKeep s.data []).length < f2) :
    renderString ev s params f1 f2 = some (.ok s) := by
  have hflat : (splitLinesKeep s.data []).flatten = s.data := by
    simpa using splitLinesKeep_flatten s.data []
  have hlines : splitLinesKeep s.data [] ≠ [] := by
    intro h
    apply hne
    have hd : s.data = [] := by rw [← hflat, h]; rfl
    calc s = String.mk s.data := (string_mk_data s).symm
    _ = "" := by rw [hd]
  have htok : tokenize s.data = litToks 1 (splitLinesKeep s.data []) := by
    rw [tokenize, tkLines_lit _ 1 hlit]
  obtain ⟨L, hP⟩ := parseP_litToks "<string>" (splitLinesKeep s.data []) 1 []
    Option.none f1 hf1 (Or.inl hlines)
  have hexec := exec_strNodes ev "<string>" (splitLinesKeep s.data []) 1
    (pupdate [] params, []) f2 hf2
  simp only [renderString, compile, htok, hP, List.reverse_nil, List.nil_append,
    Template.render, ctxRead]
  rw [hexec]
  have hdata : ∀ l : List Char, (String.mk l).data = l := fun _ => rfl
  simp only [List.nil_append, List.map_map]
  rw [show (String.data ∘ String.mk) = id from rfl, List.map_id, hflat, string_mk_data]

/-- C3, witness for the amended theorem at a concrete two-line source. -/
theorem moody_c3_literal_identity_witness :
    renderString evA "ab\ncd" [("k", Value.int 1)] 10 10 = some (.ok "ab\ncd") :=
  moody_c3_literal_identity evA "ab\ncd" [("k", Value.int 1)] 10 10
    (by decide) (by decide) (by decide) (by decide)

theorem firstTruthy_skip (ev : Evaluator) (p : Params) :
    ∀ (front rest : List (String × List (Nat × Node))),
      (∀ q ∈ front, ∃ v, ev q.1 p = Except.ok v ∧ truthy v = false) →
      firstTruthy ev p (front ++ rest) = firstTruthy ev p rest
  | [], _, _ => rfl
  | q :: front2, rest, h => by
    obtain ⟨v, hv, htv⟩ := h q (by simp)
    obtain ⟨e, blkq⟩ := q
    simp only [List.cons_append, firstTruthy, hv, htv]
    simp only [Bool.false_eq_true, if_false]
    exact firstTruthy_skip ev p front2 rest (fun q2 hq => h q2 (by simp [hq]))

/-- C2: rendering a compiled conditional produces exactly the output of the
first clause whose condition evaluates truthy — the clauses after it are
arbitrary and never evaluated or rendered; when every clause is falsy the
else block's output is produced if one exists, and the state is returned
untouched (no output) otherwise. -/
theorem moody_c2_if_selects_first_truthy
    (ev : Evaluator) (nm : String) (fuel ln : Nat) (st st2 : St)
    (front back : List (String × List (Nat × Node))) (ci : String)
    (blk : List (Nat × Node)) (els : Option (List (Nat × Node))) (vi : Value)
    (hfront : ∀ q ∈ front, ∃ v, ev q.1 st.1 = Except.ok v ∧ truthy v = false) :
    (ev ci st.1 = Except.ok vi → truthy vi = true →
      exec ev nm fuel (.block blk) st = some (.ok st2) →
      exec ev nm (fuel + 2) (.block [(ln, .ifN (front ++ (ci, blk) :: back) els)]) st
        = some (.ok st2))
    ∧ (∀ eb, els = some eb →
      exec ev nm fuel (.block eb) st = some (.ok st2) →
      exec ev nm (fuel + 2) (.block [(ln, .ifN front els)]) st = some (.ok st2))
    ∧ (els = Option.none →
      exec ev nm (fuel + 2) (.block [(ln, .ifN front Option.none)]) st = some (.ok st)) := by
  refine ⟨?_, ?_, ?_⟩
  · intro h1 h2 h3
    have hft : firstTruthy ev st.1 (front ++ (ci, blk) :: back) = .ok (some blk) := by
      rw [firstTruthy_skip ev st.1 front _ hfront]
      simp [firstTruthy, h1, h2]
    simp only [exec, hft, h3]
  · intro eb hels h3
    subst hels
    have hft : firstTruthy ev st.1 front = .ok Option.none := by
      have := firstTruthy_skip ev st.1 front [] hfront
      simpa [firstTruthy] using this
    simp only [exec, hft, h3]
  · intro hels
    subst hels
    have hft : firstTruthy ev st.1 front = .ok Option.none := by
      have := firstTruthy_skip ev st.1 front [] hfront
      simpa [firstTruthy] using this
    simp only [exec, hft]

/-- C2, witness: the second clause is the first truthy one; the third
clause's expression would raise NameError if it were ever evaluated. -/
theorem moody_c2_witness :
    exec evA "<string>" 4
        (.block [(1, .ifN [("false", []), ("true", [(1, .string "yes")]),
          ("boom", [(1, .string "no")])] Option.none)])
        ([], [])
      = some (.ok ([], ["yes"])) := by
  have h := (moody_c2_if_selects_first_truthy evA "<string>" 2 1 ([], []) ([], ["yes"])
    [("false", [])] [("boom", [(1, .string "no")])] "true" [(1, .string "yes")]
    Option.none (.bool true)
    (by
      intro q hq
      simp only [List.mem_singleton] at hq
      subst hq
      exact ⟨.bool false, rfl, rfl⟩)).1 rfl rfl rfl
  exact h

theorem exprRender_error (ev : Evaluator) (st : St) (src : String) (e : PErr)
    (h : exprRender ev st src = .error e) : ∃ m, e = .pyErr m := by
  unfold exprRender at h
  rcases hev : ev src st.1 with m | v <;> rw [hev] at h
  · exact ⟨m, by injection h with h2; exact h2.symm⟩
  · rcases hg : pget st.1 "__autoescape__" with _ | a <;> rw [hg] at h
    · simp at h
    · by_cases ht : truthy a <;> simp [ht] at h
      rcases a with _ | _ | _ | _ | _ | f <;> simp [callV] at h
      all_goals exact ⟨_, h.symm⟩

theorem firstTruthy_error (ev : Evaluator) (p : Params) :
    ∀ (clauses : List (String × List (Nat × Node))) (e : PErr),
      firstTruthy ev p clauses = .error e → ∃ m, e = .pyErr m
  | [], _, h => by simp [firstTruthy] at h
  | (ec, blk) :: rest, e, h => by
    rw [firstTruthy] at h
    rcases hev : ev ec p with m | v <;> rw [hev] at h
    · exact ⟨m, by injection h with h2; exact h2.symm⟩
    · by_cases ht : truthy v <;> simp [ht] at h
      exact firstTruthy_error ev p rest e h

theorem setParts_error (k : Nat) :
    ∀ (ns : List String) (vs : List Value) (p : Params) (e : PErr),
      setParts k ns vs p = .error e → ∃ m, e = .pyErr m
  | [], [], _, _, h => by simp [setParts] at h
  | [], _ :: _, _, _, h => ⟨_, by injection h with h2; exact h2.symm⟩
  | _ :: _, [], _, _, h => ⟨_, by injection h with h2; exact h2.symm⟩
  | _ :: ns, v :: vs, p, e, h => setParts_error k ns vs _ e h

theorem nameSet_error (n : NameS) (p : Params) (v : Value) (e : PErr)
    (h : nameSet n p v = .error e) : ∃ m, e = .pyErr m := by
  unfold nameSet at h
  by_cases hx : n.is_expandable <;> simp [hx] at h
  rcases hi : iterate v with _ | vs <;> rw [hi] at h
  · exact ⟨_, by injection h with h2; exact h2.symm⟩
  · exact setParts_error _ _ _ _ _ h

/-- Every error surfacing from a fragment render is a TemplateError that
carries the template's name, and every error surfacing from a node or loop
render carries the template's name whenever it is a TemplateError at all:
the wrapping of _render_to_context leaves no other possibility. -/
theorem exec_err_inv (ev : Evaluator) (nm : String) :
    ∀ (fuel : Nat) (task : Task) (st : St) (e : PErr),
      exec ev nm fuel task st = some (.error e) →
      ((∀ m n2 l, e = .templateErr m n2 l → n2 = nm) ∧
        (∀ ns, task = .block ns → ∃ m l, e = .templateErr m nm l)) := by
  intro fuel
  induction fuel with
  | zero =>
    intro task st e h
    exfalso
    rcases task with ns | nd | ⟨nm2, items, blk⟩
    · cases ns <;> simp [exec] at h
    · simp [exec] at h
    · cases items <;> simp [exec] at h
  | succ f ih =>
    intro task st e h
    rcases task with ns | nd | ⟨nm2, items, blk⟩
    · cases ns with
      | nil => simp [exec] at h
      | cons hd rest =>
        obtain ⟨ln, nd⟩ := hd
        simp only [exec] at h
        split at h
        · exact absurd h (by simp)
        · next e0 heq =>
          simp only [Option.some.injEq, Except.error.injEq] at h
          have hshape : ∃ m l, wrapErr e0 nm ln = .templateErr m nm l := by
            rcases e0 with m0 | ⟨m0, n0, l0⟩ | m0
            · exact ⟨m0, ln, rfl⟩
            · have hn0 : n0 = nm := ((ih _ _ _ heq).1) m0 n0 l0 rfl
              exact ⟨m0, l0, by simp [wrapErr, hn0]⟩
            · exact ⟨m0, ln, rfl⟩
          obtain ⟨m1, l1, hw⟩ := hshape
          rw [hw] at h
          subst h
          exact ⟨fun m n2 l heq2 => by injection heq2 with h1 h2 h3; exact h2.symm,
            fun ns2 _ => ⟨m1, l1, rfl⟩⟩
        · next st2 heq =>
          rcases ih _ _ _ h with ⟨h1, h2⟩
          exact ⟨h1, fun ns2 _ => h2 rest rfl⟩
    · refine ⟨?_, fun ns2 hns => by cases hns⟩
      rcases nd with v | src | ⟨cls, els⟩ | ⟨nmf, src, blkf⟩
      · simp [exec] at h
      · simp only [exec] at h
        split at h
        · next e0 heq =>
          simp only [Option.some.injEq, Except.error.injEq] at h
          subst h
          obtain ⟨m, hm⟩ := exprRender_error ev st src e0 heq
          intro m2 n2 l2 heq2
          rw [hm] at heq2
          cases heq2
        · simp at h
      · simp only [exec] at h
        split at h
        · next e0 heq =>
          simp only [Option.some.injEq, Except.error.injEq] at h
          subst h
          obtain ⟨m, hm⟩ := firstTruthy_error ev st.1 cls e0 heq
          intro m2 n2 l2 heq2
          rw [hm] at heq2
          cases heq2
        · next blk2 heq =>
          exact (ih _ _ _ h).1
        · next heq =>
          split at h
          · next blk3 => exact (ih _ _ _ h).1
          · simp at h
      · simp only [exec] at h
        split at h
        · next m0 heq =>
          simp only [Option.some.injEq, Except.error.injEq] at h
          subst h
          intro m2 n2 l2 heq2
          cases heq2
        · next v heq =>
          split at h
          · simp only [Option.some.injEq, Except.error.injEq] at h
            subst h
            intro m2 n2 l2 heq2
            cases heq2
          · next items2 heq2 =>
            exact (ih _ _ _ h).1
    · refine ⟨?_, fun ns2 hns => by cases hns⟩
      cases items with
      | nil => simp [exec] at h
      | cons item its =>
        simp only [exec] at h
        split at h
        · next e0 heq =>
          simp only [Option.some.injEq, Except.error.injEq] at h
          subst h
          obtain ⟨m, hm⟩ := nameSet_error nm2 st.1 item e0 heq
          intro m2 n2 l2 heq2
          rw [hm] at heq2
          cases heq2
        · next p2 heq =>
          split at h
          · exact absurd h (by simp)
          · next e0 heq2 =>
            simp only [Option.some.injEq, Except.error.injEq] at h
            subst h
            exact (ih _ _ _ heq2).1
          · next st2 heq2 =>
            exact (ih _ _ _ h).1
/-- C4: rendering is all-or-nothing.  Whenever a render call delivers an
error instead of an output string, that error is a TemplateError carrying
the template's name and a line number (part one); and whenever a node's own
render raises a plain exception, the enclosing fragment delivers exactly
TemplateError(message, name, that node's line number) regardless of the
nodes after it and of whatever partial output is already in the buffer —
the buffer is never delivered (part two). -/
theorem moody_c4_all_or_nothing (ev : Evaluator) (fuel : Nat) (t : Template)
    (params : Params) :
    (∀ e, Template.render ev fuel t params = some (.error e) →
      ∃ m l, e = .templateErr m t.name l)
    ∧ (∀ (st : St) (ln : Nat) (bad : Node) (post : List (Nat × Node)) (m : String)
        (g : Nat),
      exec ev t.name g (.one bad) st = some (.error (.pyErr m)) →
      exec ev t.name (g + 1) (.block ((ln, bad) :: post)) st
        = some (.error (.templateErr m t.name ln))) := by
  constructor
  · intro e h
    rw [Template.render] at h
    rcases hx : exec ev t.name fuel (.block t.nodes) (pupdate t.defaults params, [])
      with _ | x <;> rw [hx] at h
    · simp at h
    · rcases x with e0 | st2
      · simp only [Option.some.injEq, Except.error.injEq] at h
        subst h
        exact (exec_err_inv ev t.name fuel _ _ e0 hx).2 t.nodes rfl
      · simp at h
  · intro st ln bad post m g hbad
    simp only [exec, hbad]
    rfl

/-- C4, witness: a failing interpolation at line 3 aborts the render; the
literal node after it is never rendered and the partial buffer content is
dropped. -/
theorem moody_c4_witness :
    exec evA "<string>" 6
        (.block [(3, .exprN "boom"), (9, .string "never")]) ([], ["partial"])
      = some (.error (.templateErr "name \x27boom\x27 is not defined" "<string>" 3)) :=
  (moody_c4_all_or_nothing evA 6 ⟨[], "<string>", []⟩ []).2
    ([], ["partial"]) 3 (.exprN "boom") [(9, .string "never")]
    "name \x27boom\x27 is not defined" 5 rfl

theorem setParts_short (k : Nat) :
    ∀ (ns : List String) (vs : List Value) (p : Params), vs.length < ns.length →
      setParts k ns vs p = .error (.pyErr "Not enough values to unpack.")
  | [], vs, p, h => by simp at h
  | n :: ns, [], p, _ => rfl
  | n :: ns, v :: vs, p, h =>
    setParts_short k ns vs (pset p n v) (by simp at h; omega)

theorem setParts_long (k : Nat) :
    ∀ (ns : List String) (vs : List Value) (p : Params), ns.length < vs.length →
      setParts k ns vs p
        = .error (.pyErr ("Need more that " ++ toString k ++ " values to unpack."))
  | [], v :: vs, p, _ => rfl
  | [], [], p, h => by simp at h
  | n :: ns, [], p, h => by simp at h
  | n :: ns, v :: vs, p, h =>
    setParts_long k ns vs (pset p n v) (by simp at h; omega)

theorem setParts_exact (k : Nat) :
    ∀ (ns : List String) (vs : List Value) (p : Params), ns.length = vs.length →
      setParts k ns vs p
        = .ok ((ns.zip vs).foldl (fun a nv => pset a nv.1 nv.2) p)
  | [], [], p, _ => rfl
  | [], v :: vs, p, h => by simp at h
  | n :: ns, [], p, h => by simp at h
  | n :: ns, v :: vs, p, h => by
    rw [setParts, setParts_exact k ns vs (pset p n v) (by simpa using h)]
    simp

/-- C8: an expandable binding target of k names treats each loop item as an
iterable and consumes exactly k values: with fewer values the bind raises
ValueError "Not enough values to unpack.", with more it raises ValueError
"Need more that k values to unpack.", and with exactly k it binds each name
to the corresponding value in order; inside a for loop both arity errors
surface through the render error channel as a TemplateError carrying the
template name and the for node's line number, exactly like expression
errors. -/
theorem moody_c8_unpack_arity (ev : Evaluator) (nm : String) (fuel ln : Nat)
    (st : St) (names : List String) (ys : List Value) (p : Params)
    (src : String) (more : List Value) (blk : List (Nat × Node)) :
    (ys.length < names.length →
      nameSet ⟨names, true⟩ p (.list ys)
        = .error (.pyErr "Not enough values to unpack."))
    ∧ (names.length < ys.length →
      nameSet ⟨names, true⟩ p (.list ys)
        = .error (.pyErr ("Need more that " ++ toString names.length
            ++ " values to unpack.")))
    ∧ (names.length = ys.length →
      nameSet ⟨names, true⟩ p (.list ys)
        = .ok ((names.zip ys).foldl (fun a nv => pset a nv.1 nv.2) p))
    ∧ (ev src st.1 = .ok (.list (.list ys :: more)) → ys.length < names.length →
      exec ev nm (fuel + 3) (.block [(ln, .forN ⟨names, true⟩ src blk)]) st
        = some (.error (.templateErr "Not enough values to unpack." nm ln)))
    ∧ (ev src st.1 = .ok (.list (.list ys :: more)) → names.length < ys.length →
      exec ev nm (fuel + 3) (.block [(ln, .forN ⟨names, true⟩ src blk)]) st
        = some (.error (.templateErr ("Need more that " ++ toString names.length
            ++ " values to unpack.") nm ln))) := by
  refine ⟨?_, ?_, ?_, ?_, ?_⟩
  · intro h
    simp only [nameSet, iterate]
    exact setParts_short names.length names ys p h
  · intro h
    simp only [nameSet, iterate]
    exact setParts_long names.length names ys p h
  · intro h
    simp only [nameSet, iterate]
    exact setParts_exact names.length names ys p h
  · intro hev h
    have hns : nameSet ⟨names, true⟩ st.1 (.list ys)
        = .error (.pyErr "Not enough values to unpack.") := by
      simp only [nameSet, iterate]
      exact setParts_short names.length names ys st.1 h
    simp only [exec, hev, iterate, hns]
    rfl
  · intro hev h
    have hns : nameSet ⟨names, true⟩ st.1 (.list ys)
        = .error (.pyErr ("Need more that " ++ toString names.length
            ++ " values to unpack.")) := by
      simp only [nameSet, iterate]
      exact setParts_long names.length names ys st.1 h
    simp only [exec, hev, iterate, hns]
    rfl

/-- C8, witness: for a, b over a list whose first pair has a single item,
the render fails with the not-enough-values TemplateError at the for
node's line. -/
theorem moody_c8_witness :
    exec evA "<string>" 10
        (.block [(1, .forN ⟨["a", "b"], true⟩ "pairs" [])])
        ([("pairs", .list [.list [.int 1]])], [])
      = some (.error (.templateErr "Not enough values to unpack." "<string>" 1)) :=
  ((moody_c8_unpack_arity evA "<string>" 7 1
      ([("pairs", .list [.list [.int 1]])], []) ["a", "b"] [.int 1]
      [] "pairs" [] []).2.2.2.1) rfl (by decide)

theorem takeWhile_nil_of_all {p : Char → Bool} :
    ∀ (cs : List Char), (∀ c ∈ cs, p c = false) → cs.takeWhile p = []
  | [], _ => rfl
  | c :: rest, h => by simp [List.takeWhile_cons, h c (by simp)]

theorem noTagL_of_all :
    ∀ (cs : List Char), (∀ c ∈ cs, ¬c = chLB) → noTagL cs = true
  | [], _ => rfl
  | c :: rest, h => by
    simp only [noTagL, Bool.and_eq_true, Option.isNone_iff_eq_none]
    exact ⟨tryMatch_not_lb rest (h c (by simp)),
      noTagL_of_all rest (fun c2 hc => h c2 (by simp [hc]))⟩

theorem splitCloser_clean (c1 c2 : Char) (rest : List Char) :
    ∀ (w : List Char), (∀ c ∈ w, ¬c = c1 ∧ ¬c = '\n') →
      splitCloser c1 c2 (w ++ c1 :: c2 :: rest) = some (w, rest)
  | [], _ => by simp [splitCloser]
  | c :: w2, h => by
    obtain ⟨hc1, hcn⟩ := h c (by simp)
    have ih := splitCloser_clean c1 c2 rest w2 (fun c3 hc => h c3 (by simp [hc]))
    cases hw : w2 ++ c1 :: c2 :: rest with
    | nil => simp at hw
    | cons b cs2 =>
      rw [List.cons_append, hw, splitCloser, if_neg (by simp [hc1]), if_neg hcn, ← hw, ih]


theorem tryMatch_mac (inner rest : List Char)
    (h : ∀ c ∈ inner, ¬c = '%' ∧ ¬c = '\n') :
    tryMatch (chLB :: '%' :: (inner ++ '%' :: chRB :: rest))
      = some ((if (pyTrim inner).isEmpty then Option.none
          else some (Tok.mac (String.mk (pyTrim inner)))), rest) := by
  cases hw : inner ++ '%' :: chRB :: rest with
  | nil => simp at hw
  | cons b cs2 =>
    rw [tryMatch.eq_def]
    simp only [← hw]
    rw [if_neg (by decide), if_neg (by decide), if_pos (by decide),
      splitCloser_clean '%' chRB rest inner h]

theorem tryMatch_expr (inner rest : List Char)
    (h : ∀ c ∈ inner, ¬c = chRB ∧ ¬c = '\n') :
    tryMatch (chLB :: chLB :: (inner ++ chRB :: chRB :: rest))
      = some ((if (pyTrim inner).isEmpty then Option.none
          else some (Tok.expr (String.mk (pyTrim inner)))), rest) := by
  cases hw : inner ++ chRB :: chRB :: rest with
  | nil => simp at hw
  | cons b cs2 =>
    rw [tryMatch.eq_def]
    simp only [← hw]
    rw [if_neg (by decide), if_pos (by decide),
      splitCloser_clean chRB chRB rest inner h]

theorem tryMatch_comment (c0 : Char) (inner rest : List Char) (hc0 : ¬c0 = '\n')
    (h : ∀ c ∈ inner, ¬c = '#' ∧ ¬c = '\n') :
    tryMatch (chLB :: '#' :: c0 :: (inner ++ '#' :: chRB :: rest))
      = some (Option.none, rest) := by
  rw [tryMatch.eq_def]
  simp only
  rw [if_pos (by decide), if_neg hc0, splitCloser_clean '#' chRB rest inner h]


/-- The token-or-nothing emitted for one regex match. -/
def optTok : Option Tok → List Tok
  | some t => [t]
  | Option.none => []

theorem scanF_skip_lit :
    ∀ (pre : List Char), (∀ c ∈ pre, ¬c = chLB) →
      ∀ (tail pending : List Char) (fuel : Nat), pre.length ≤ fuel →
      scanF fuel (pre ++ tail) pending
        = scanF (fuel - pre.length) tail (pre.reverse ++ pending)
  | [], _, tail, pending, fuel, _ => by simp
  | c :: pre2, h, tail, pending, fuel, hf => by
    obtain ⟨f, rfl⟩ : ∃ f, fuel = f + 1 := ⟨fuel - 1, by simp at hf; omega⟩
    rw [List.cons_append, scanF, tryMatch_not_lb _ (h c (by simp)),
      scanF_skip_lit pre2 (fun c2 hc => h c2 (by simp [hc])) tail (c :: pending) f
        (by simp at hf; omega)]
    simp

theorem scanLine_pre_match (pre rcs tail : List Char) (otok : Option Tok)
    (hpre : ∀ c ∈ pre, ¬c = chLB) (hm : tryMatch rcs = some (otok, tail))
    (hlen : tail.length < rcs.length) (htail : noTagL tail = true) :
    scanLine (pre ++ rcs)
      = (if pre.isEmpty then [] else [Tok.str (String.mk pre)])
        ++ optTok otok ++ [Tok.str (String.mk tail)] := by
  obtain ⟨c, rcs2, rfl⟩ : ∃ c rcs2, rcs = c :: rcs2 := by
    cases rcs with
    | nil => simp [tryMatch] at hm
    | cons c r => exact ⟨c, r, rfl⟩
  rw [scanLine, scanF_skip_lit pre hpre _ [] _ (by simp)]
  have hlen2 : (pre ++ c :: rcs2).length - pre.length = rcs2.length + 1 := by
    simp
  rw [hlen2, scanF]
  simp only [hm]
  rw [scanF_noTag tail htail [] rcs2.length (by simp at hlen; omega)]
  have hrev : pre.reverse.isEmpty = pre.isEmpty := by cases pre <;> simp
  simp only [List.append_nil, List.reverse_reverse, hrev]
  cases otok <;> simp [optTok]

theorem splitLinesKeep_single :
    ∀ (cs acc : List Char), (∀ c ∈ cs, ¬c = '\r' ∧ ¬c = '\n') →
      splitLinesKeep cs acc
        = if (acc.reverse ++ cs).isEmpty then [] else [acc.reverse ++ cs]
  | [], acc, _ => by
    rw [splitLinesKeep]
    cases acc <;> simp
  | c :: rest, acc, h => by
    obtain ⟨h1, h2⟩ := h c (by simp)
    rw [splitLinesKeep.eq_def]
    simp only [h1, h2, if_false]
    rw [splitLinesKeep_single rest (c :: acc) (fun c2 hc => h c2 (by simp [hc]))]
    simp

theorem tokenize_single_line (cs : List Char) (hne : cs ≠ [])
    (hnl : ∀ c ∈ cs, ¬c = '\r' ∧ ¬c = '\n') :
    tokenize cs = (scanLine cs).map (fun t => (1, t)) := by
  rw [tokenize, splitLinesKeep_single cs [] hnl]
  simp only [List.reverse_nil, List.nil_append]
  rw [if_neg (by simpa using hne)]
  rw [tkLines, tkLines]
  simp

/-- C6, counterexample: compiling "\x7b% if true %\x7dno endif" does fail
and the message does name the opening if tag, but the exception delivered
is not a TemplateSyntaxError: parse_template_chunk catches the
TemplateSyntaxError raised by parse_block and re-wraps it, so the caller
receives a TemplateError. -/
theorem moody_c6_counterexample :
    compile "\x7b% if true %\x7dno endif".data "<string>" [] 20
      = some (.error (.templateErr
          "\x7b% if %\x7d tag could not find a corresponding \x7b% endif \x7d." "<string>" 1)) := by
  rfl

/-- C6, amended: for every template consisting of an unterminated
"\x7b% if true %\x7d" opening tag followed by tag-free single-line text,
compilation fails with a TemplateError — the TemplateSyntaxError raised by
parse_block, naming the opening if tag, wrapped with the template name and
the opening tag's line number. -/
theorem moody_c6_unterminated_wrapped (nm : String) (dp : Params) (s : String) (fuel : Nat)
    (hs : ∀ c ∈ s.data, ¬c = chLB ∧ ¬c = '\r' ∧ ¬c = '\n') (hf : 4 ≤ fuel) :
    compile ("\x7b% if true %\x7d" ++ s).data nm dp fuel
      = some (.error (.templateErr
          "\x7b% if %\x7d tag could not find a corresponding \x7b% endif \x7d." nm 1)) := by
  have h1 : ("\x7b% if true %\x7d" : String).data
      = chLB :: '%' :: (" if true ".data ++ ['%', chRB]) := by decide
  have hdata : ("\x7b% if true %\x7d" ++ s).data
      = chLB :: '%' :: (" if true ".data ++ '%' :: chRB :: s.data) := by
    rw [String.data_append, h1]
    simp
  have hcap : pyTrim " if true ".data = "if true".data := by decide
  have hm := tryMatch_mac (" if true ".data) s.data (by decide)
  rw [hcap] at hm
  have hm2 : tryMatch (chLB :: '%' :: (" if true ".data ++ '%' :: chRB :: s.data))
      = some (some (Tok.mac "if true"), s.data) := by
    rw [hm, if_neg (by decide)]
  have hscan : scanLine (chLB :: '%' :: (" if true ".data ++ '%' :: chRB :: s.data))
      = [Tok.mac "if true", Tok.str s] := by
    have := scanLine_pre_match [] _ s.data (some (Tok.mac "if true"))
      (by simp) hm2 (by simp; omega) (noTagL_of_all s.data (fun c hc => (hs c hc).1))
    simpa [optTok, string_mk_data] using this
  have htokz : tokenize (("\x7b% if true %\x7d" ++ s).data)
      = [(1, Tok.mac "if true"), (1, Tok.str s)] := by
    rw [hdata, tokenize_single_line _ (by simp) ?memb, hscan]
    · rfl
    case memb =>
      intro c hc
      have hshape : chLB :: '%' :: (" if true ".data ++ '%' :: chRB :: s.data)
          = ("\x7b% if true %\x7d" : String).data ++ s.data := by
        rw [h1]
        simp
      rw [hshape] at hc
      rcases List.mem_append.mp hc with h | h
      · have hconc : ∀ c ∈ ("\x7b% if true %\x7d" : String).data,
            ¬c = '\r' ∧ ¬c = '\n' := by decide
        exact hconc c h
      · exact ⟨(hs c h).2.1, (hs c h).2.2⟩
  obtain ⟨f, rfl⟩ : ∃ f, fuel = f + 1 + 1 + 1 + 1 := ⟨fuel - 4, by omega⟩
  rw [compile, htokz]
  rw [parseP]
  have hmi : matchIf "if true" = some "true" := by decide
  simp only [hmi]
  rw [parseP]
  rw [parseP]
  rw [parseP]
  simp only [List.reverse_cons, List.reverse_nil, List.nil_append]
  rfl

/-- C6, witness for the amended theorem at the spec's own example input. -/
theorem moody_c6_witness :
    compile ("\x7b% if true %\x7d" ++ "no endif").data "<string>" [] 20
      = some (.error (.templateErr
          "\x7b% if %\x7d tag could not find a corresponding \x7b% endif \x7d." "<string>" 1)) :=
  moody_c6_unterminated_wrapped "<string>" [] "no endif" 20 (by decide) (by decide)

theorem pyTrim_clean (w : List Char) (hne : w ≠ [])
    (h : ∀ c ∈ w, isPySpace c = false) :
    pyTrim (' ' :: (w ++ [' '])) = w := by
  obtain ⟨c, w2, rfl⟩ : ∃ c w2, w = c :: w2 := by
    cases w with
    | nil => exact absurd rfl hne
    | cons c w2 => exact ⟨c, w2, rfl⟩
  obtain ⟨d, ws, hrev⟩ : ∃ d ws, (c :: w2).reverse = d :: ws := by
    cases hx : (c :: w2).reverse with
    | nil => simp at hx
    | cons d ws => exact ⟨d, ws, rfl⟩
  have hd : isPySpace d = false :=
    h d (List.mem_reverse.mp (by rw [hrev]; simp))
  rw [pyTrim]
  have h1 : List.dropWhile isPySpace (' ' :: (c :: w2 ++ [' '])) = c :: w2 ++ [' '] := by
    rw [List.dropWhile_cons]
    simp only [show isPySpace ' ' = true from rfl, if_true, List.cons_append,
      List.dropWhile_cons, h c (by simp)]
    simp
  rw [h1]
  have h2 : ((c :: w2) ++ [' ']).reverse = ' ' :: (c :: w2).reverse := by simp
  rw [h2, List.dropWhile_cons]
  simp only [show isPySpace ' ' = true from rfl, if_true]
  rw [hrev, List.dropWhile_cons]
  simp only [hd]
  simp only [Bool.false_eq_true, if_false]
  rw [← hrev]
  simp

theorem matchIf_none (t : String) (ht : ∀ c ∈ t.data, isPySpace c = false) :
    matchIf t = Option.none := by
  rw [matchIf.eq_def]
  split
  · next rest heq =>
    rw [takeWhile_nil_of_all rest (fun c hc => ht c (by rw [heq]; simp [hc]))]
    simp
  · rfl

theorem matchFor_none (t : String) (ht : ∀ c ∈ t.data, isPySpace c = false) :
    matchFor t = Option.none := by
  rw [matchFor.eq_def]
  split
  · next rest heq =>
    rw [takeWhile_nil_of_all rest (fun c hc => ht c (by rw [heq]; simp [hc]))]
    simp
  · rfl

/-- C5, counterexample: an unknown tag does fail compilation, but not as
claimed.  At top level the error is a TemplateSyntaxError naming the tag
text whose message contains no line number at all (the raise in
Parser.compile formats only the tag text); inside a nested block the raise
in parse_block passes its token by keyword to a positional format field, so
an IndexError escapes instead and is wrapped into a TemplateError that
names neither the tag nor a syntax error. -/
theorem moody_c5_counterexample :
    (compile "\x7b% bogus %\x7d".data "<string>" [] 20
      = some (.error (.synErr "\x7b% bogus %\x7d is not a recognized tag.")))
    ∧ ("\x7b% bogus %\x7d is not a recognized tag.".data.contains '1' = false)
    ∧ (compile "\x7b% if true %\x7d\x7b% bogus %\x7d\x7b% endif %\x7d".data "<string>" [] 20
      = some (.error (.templateErr
          "Replacement index 0 out of range for positional args tuple" "<string>" 1))) := by
  exact ⟨rfl, by decide, rfl⟩

/-- C5, amended: for every top-level tag whose trimmed text is nonempty,
whitespace-free and percent-free and is recognized by no macro, compilation
fails with a TemplateSyntaxError naming the tag's text — but without any
line number in the message; nested unknown tags instead surface as the
TemplateError of the counterexample. -/
theorem moody_c5_unknown_tag_toplevel (nm : String) (dp : Params) (t : String) (fuel : Nat)
    (hne : t ≠ "") (ht : ∀ c ∈ t.data, isPySpace c = false ∧ ¬c = '%') (hf : 2 ≤ fuel) :
    compile ("\x7b% " ++ t ++ " %\x7d").data nm dp fuel
      = some (.error (.synErr ("\x7b% " ++ t ++ " %\x7d is not a recognized tag."))) := by
  have hdne : t.data ≠ [] := by
    intro hd
    apply hne
    have h0 := string_mk_data t
    rw [hd] at h0
    exact h0.symm
  have hdata : ("\x7b% " ++ t ++ " %\x7d").data
      = chLB :: '%' :: ((' ' :: (t.data ++ [' '])) ++ '%' :: chRB :: []) := by
    rw [String.data_append, String.data_append]
    rw [show ("\x7b% " : String).data = [chLB, '%', ' '] from by decide,
      show (" %\x7d" : String).data = [' ', '%', chRB] from by decide]
    simp
  have hcap : pyTrim (' ' :: (t.data ++ [' '])) = t.data :=
    pyTrim_clean t.data hdne (fun c hc => (ht c hc).1)
  have hm := tryMatch_mac (' ' :: (t.data ++ [' '])) []
    (by
      intro c hc
      rcases List.mem_cons.mp hc with rfl | hc2
      · exact ⟨by decide, by decide⟩
      · rcases List.mem_append.mp hc2 with h3 | h3
        · refine ⟨(ht c h3).2, ?_⟩
          intro hcn
          have := (ht c h3).1
          rw [hcn] at this
          simp [isPySpace] at this
        · simp only [List.mem_singleton] at h3
          subst h3
          exact ⟨by decide, by decide⟩)
  rw [hcap] at hm
  have hm2 : tryMatch (chLB :: '%' :: ((' ' :: (t.data ++ [' '])) ++ '%' :: chRB :: []))
      = some (some (Tok.mac t), []) := by
    rw [hm, if_neg (by simpa using hdne), string_mk_data]
  have hscan : scanLine (chLB :: '%' :: ((' ' :: (t.data ++ [' '])) ++ '%' :: chRB :: []))
      = [Tok.mac t, Tok.str ""] := by
    have := scanLine_pre_match [] _ [] (some (Tok.mac t))
      (by simp) hm2 (by simp) rfl
    simpa [optTok] using this
  have htokz : tokenize (("\x7b% " ++ t ++ " %\x7d").data)
      = [(1, Tok.mac t), (1, Tok.str "")] := by
    rw [hdata, tokenize_single_line _ (by simp) ?memb, hscan]
    · rfl
    case memb =>
      intro c hc
      simp only [List.mem_cons, List.mem_append, List.mem_singleton] at hc
      have hsp : ∀ c2 ∈ t.data, ¬c2 = '\r' ∧ ¬c2 = '\n' := by
        intro c2 hc2
        have h5 := (ht c2 hc2).1
        constructor
        · intro hcn
          rw [hcn] at h5
          simp [isPySpace] at h5
        · intro hcn
          rw [hcn] at h5
          simp [isPySpace] at h5
      rcases hc with rfl | rfl | (rfl | hc3 | rfl | hc4) | rfl | rfl | hc5
      · exact ⟨by decide, by decide⟩
      · exact ⟨by decide, by decide⟩
      · exact ⟨by decide, by decide⟩
      · exact hsp c hc3
      · exact ⟨by decide, by decide⟩
      · simp at hc4
      · exact ⟨by decide, by decide⟩
      · exact ⟨by decide, by decide⟩
      · simp at hc5
  obtain ⟨f, rfl⟩ : ∃ f, fuel = f + 1 + 1 := ⟨fuel - 2, by omega⟩
  rw [compile, htokz]
  rw [parseP]
  rw [matchIf_none t (fun c hc => (ht c hc).1)]
  rw [matchFor_none t (fun c hc => (ht c hc).1)]

/-- C5, witness for the amended theorem at the spec's example tag. -/
theorem moody_c5_witness :
    compile ("\x7b% " ++ "bogus" ++ " %\x7d").data "<string>" [] 20
      = some (.error (.synErr ("\x7b% " ++ "bogus" ++ " %\x7d is not a recognized tag."))) :=
  moody_c5_unknown_tag_toplevel "<string>" [] "bogus" 20 (by decide)
    (by decide) (by decide)

theorem pyTrim_ws (w : List Char) (h : ∀ c ∈ w, isPySpace c = true) :
    pyTrim w = [] := by
  have h1 : List.dropWhile isPySpace w = [] := by
    induction w with
    | nil => rfl
    | cons c rest ih =>
      rw [List.dropWhile_cons, if_pos (h c (by simp))]
      exact ih (fun c2 hc => h c2 (by simp [hc]))
  rw [pyTrim, h1]
  rfl

theorem parseP_strToks (nm : String) :
    ∀ (ls : List (Nat × String)) (acc : List (Nat × Node))
      (lastLn : Option Nat) (fuel : Nat),
      ls.length < fuel → (ls ≠ [] ∨ lastLn.isSome) →
      ∃ L, parseP nm fuel (.chunk acc lastLn) (ls.map (fun q => (q.1, Tok.str q.2)))
        = some (.ok (.chunkRes L Option.none
            (acc.reverse ++ ls.map (fun q => (q.1, Node.string q.2))) []))
  | [], acc, lastLn, fuel, hf, hne => by
    obtain ⟨f, rfl⟩ : ∃ f, fuel = f + 1 := ⟨fuel - 1, by omega⟩
    obtain ⟨l, rfl⟩ : ∃ l, lastLn = some l := by
      rcases hne with h | h
      · exact absurd rfl h
      · exact ⟨lastLn.get h, (Option.some_get h).symm⟩
    exact ⟨l, by simp [parseP]⟩
  | (n, str1) :: rest, acc, lastLn, fuel, hf, _ => by
    obtain ⟨f, rfl⟩ : ∃ f, fuel = f + 1 := ⟨fuel - 1, by omega⟩
    obtain ⟨L, hL⟩ := parseP_strToks nm rest ((n, Node.string str1) :: acc)
      (some n) f (by simp at hf ⊢; omega) (by cases rest <;> simp)
    refine ⟨L, ?_⟩
    rw [List.map_cons, parseP, hL]
    simp

theorem exec_strToks (ev : Evaluator) (nm : String) :
    ∀ (ls : List (Nat × String)) (st : St) (fuel : Nat),
      ls.length < fuel →
      exec ev nm fuel (.block (ls.map (fun q => (q.1, Node.string q.2)))) st
        = some (.ok (st.1, st.2 ++ ls.map (fun q => q.2)))
  | [], st, fuel, _ => by simp [exec]
  | (n, str1) :: rest, st, fuel, hf => by
    obtain ⟨f, rfl⟩ : ∃ f, fuel = f + 1 := ⟨fuel - 1, by omega⟩
    obtain ⟨g, rfl⟩ : ∃ g, f = g + 1 := ⟨f - 1, by simp at hf; omega⟩
    have ih := exec_strToks ev nm rest (st.1, st.2 ++ [str1]) (g + 1)
      (by simp at hf ⊢; omega)
    simp only [List.map_cons, exec, ih]
    simp

theorem renderString_one_region (ev : Evaluator) (params : Params)
    (pre rcs post : List Char) (f1 f2 : Nat)
    (hpre : ∀ c ∈ pre, ¬c = chLB ∧ ¬c = '\r' ∧ ¬c = '\n')
    (hpost : ∀ c ∈ post, ¬c = chLB ∧ ¬c = '\r' ∧ ¬c = '\n')
    (hm : tryMatch rcs = some (Option.none, post))
    (hrcs : ∀ c ∈ rcs, ¬c = '\r' ∧ ¬c = '\n')
    (hlen : post.length < rcs.length)
    (hf1 : 3 ≤ f1) (hf2 : 3 ≤ f2) :
    renderString ev (String.mk (pre ++ rcs)) params f1 f2
      = some (.ok (String.mk (pre ++ post))) := by
  have hrne : rcs ≠ [] := by
    intro h
    rw [h] at hlen
    simp at hlen
  have hscan : scanLine (pre ++ rcs)
      = (if pre.isEmpty then [] else [Tok.str (String.mk pre)])
        ++ [Tok.str (String.mk post)] := by
    have := scanLine_pre_match pre rcs post Option.none (fun c hc => (hpre c hc).1) hm hlen
      (noTagL_of_all post (fun c hc => (hpost c hc).1))
    simpa [optTok] using this
  have htokz : tokenize (String.mk (pre ++ rcs)).data
      = ((if pre.isEmpty then [] else [(1, Tok.str (String.mk pre))])
          ++ [(1, Tok.str (String.mk post))]) := by
    have hd : (String.mk (pre ++ rcs)).data = pre ++ rcs := rfl
    rw [hd, tokenize_single_line _ (by simp [hrne]) ?memb, hscan]
    · by_cases hp : pre.isEmpty <;> simp [hp]
    case memb =>
      intro c hc
      rcases List.mem_append.mp hc with h | h
      · exact ⟨(hpre c h).2.1, (hpre c h).2.2⟩
      · exact hrcs c h
  set ls : List (Nat × String) :=
    (if pre.isEmpty then [] else [(1, String.mk pre)]) ++ [(1, String.mk post)] with hls
  have htokz2 : tokenize (String.mk (pre ++ rcs)).data
      = ls.map (fun q => (q.1, Tok.str q.2)) := by
    rw [htokz, hls]
    by_cases hp : pre.isEmpty <;> simp [hp]
  have hlslen : ls.length < 3 := by
    rw [hls]
    by_cases hp : pre.isEmpty <;> simp [hp]
  obtain ⟨L, hP⟩ := parseP_strToks "<string>" ls [] Option.none f1
    (by omega) (by rw [hls]; by_cases hp : pre.isEmpty <;> simp [hp])
  have hexec := exec_strToks ev "<string>" ls (pupdate [] params, []) f2 (by omega)
  simp only [renderString, compile, htokz2, hP, List.reverse_nil, List.nil_append,
    Template.render, ctxRead]
  rw [hexec]
  have hdata2 : ∀ l : List Char, (String.mk l).data = l := fun _ => rfl
  by_cases hp : pre.isEmpty
  · have hpe : pre = [] := List.isEmpty_iff.mp hp
    subst hpe
    simp [hls, hdata2]
  · simp [hls, hp, hdata2]

/-- C9: a delimiter region whose inner text is empty after whitespace
trimming — a "\x7b% %\x7d" or "\x7b%%\x7d" tag and a "\x7b\x7b \x7d\x7d"
or "\x7b\x7b\x7d\x7d" interpolation — is consumed by the scanner but
yields no token: compilation succeeds and the region disappears from the
rendered output, producing exactly the same result as a comment
"\x7b#c#\x7d" in the same position, for any surrounding single-line
literal text and any parameters. -/
theorem moody_c9_empty_regions (ev : Evaluator) (params : Params) (pre post w : List Char)
    (f1 f2 : Nat)
    (hpre : ∀ c ∈ pre, ¬c = chLB ∧ ¬c = '\r' ∧ ¬c = '\n')
    (hpost : ∀ c ∈ post, ¬c = chLB ∧ ¬c = '\r' ∧ ¬c = '\n')
    (hw : ∀ c ∈ w, isPySpace c = true ∧ ¬c = '\r' ∧ ¬c = '\n')
    (hf1 : 3 ≤ f1) (hf2 : 3 ≤ f2) :
    (renderString ev (String.mk (pre ++ (chLB :: '%' :: (w ++ '%' :: chRB :: post))))
        params f1 f2 = some (.ok (String.mk (pre ++ post))))
    ∧ (renderString ev (String.mk (pre ++ (chLB :: chLB :: (w ++ chRB :: chRB :: post))))
        params f1 f2 = some (.ok (String.mk (pre ++ post))))
    ∧ (renderString ev (String.mk (pre ++ (chLB :: '#' :: 'c' :: '#' :: chRB :: post)))
        params f1 f2 = some (.ok (String.mk (pre ++ post)))) := by
  have hwp : ∀ c ∈ w, ¬c = '%' ∧ ¬c = '\n' := by
    intro c hc
    refine ⟨?_, (hw c hc).2.2⟩
    intro heq
    have h9 := (hw c hc).1
    rw [heq] at h9
    exact absurd h9 (by decide)
  have hwr : ∀ c ∈ w, ¬c = chRB ∧ ¬c = '\n' := by
    intro c hc
    refine ⟨?_, (hw c hc).2.2⟩
    intro heq
    have h9 := (hw c hc).1
    rw [heq] at h9
    exact absurd h9 (by decide)
  refine ⟨?_, ?_, ?_⟩
  · have hm := tryMatch_mac w post hwp
    rw [pyTrim_ws w (fun c hc => (hw c hc).1)] at hm
    simp only [List.isEmpty_nil, if_true] at hm
    apply renderString_one_region ev params pre _ post f1 f2 hpre hpost hm ?hrcs
      (by simp; omega) hf1 hf2
    case hrcs =>
      intro c hc
      simp only [List.mem_cons, List.mem_append] at hc
      rcases hc with rfl | rfl | hcw | rfl | rfl | hcp
      · exact ⟨by decide, by decide⟩
      · exact ⟨by decide, by decide⟩
      · exact ⟨(hw c hcw).2.1, (hw c hcw).2.2⟩
      · exact ⟨by decide, by decide⟩
      · exact ⟨by decide, by decide⟩
      · exact ⟨(hpost c hcp).2.1, (hpost c hcp).2.2⟩
  · have hm := tryMatch_expr w post hwr
    rw [pyTrim_ws w (fun c hc => (hw c hc).1)] at hm
    simp only [List.isEmpty_nil, if_true] at hm
    apply renderString_one_region ev params pre _ post f1 f2 hpre hpost hm ?hrcs2
      (by simp; omega) hf1 hf2
    case hrcs2 =>
      intro c hc
      simp only [List.mem_cons, List.mem_append] at hc
      rcases hc with rfl | rfl | hcw | rfl | rfl | hcp
      · exact ⟨by decide, by decide⟩
      · exact ⟨by decide, by decide⟩
      · exact ⟨(hw c hcw).2.1, (hw c hcw).2.2⟩
      · exact ⟨by decide, by decide⟩
      · exact ⟨by decide, by decide⟩
      · exact ⟨(hpost c hcp).2.1, (hpost c hcp).2.2⟩
  · have hm := tryMatch_comment 'c' [] post (by decide) (by simp)
    simp only [List.nil_append] at hm
    apply renderString_one_region ev params pre _ post f1 f2 hpre hpost hm ?hrcs3
      (by simp; omega) hf1 hf2
    case hrcs3 =>
      intro c hc
      simp only [List.mem_cons] at hc
      rcases hc with rfl | rfl | rfl | rfl | rfl | hcp
      · exact ⟨by decide, by decide⟩
      · exact ⟨by decide, by decide⟩
      · exact ⟨by decide, by decide⟩
      · exact ⟨by decide, by decide⟩
      · exact ⟨by decide, by decide⟩
      · exact ⟨(hpost c hcp).2.1, (hpost c hcp).2.2⟩

/-- C9, witness: each empty region between the literals a and b renders to
"ab", as the comment does. -/
theorem moody_c9_witness :
    (renderString evA
        (String.mk (['a'] ++ (chLB :: '%' :: ([' '] ++ '%' :: chRB :: ['b'])))) [] 3 3
      = some (.ok (String.mk (['a'] ++ ['b']))))
    ∧ (renderString evA
        (String.mk (['a'] ++ (chLB :: chLB :: ([' '] ++ chRB :: chRB :: ['b'])))) [] 3 3
      = some (.ok (String.mk (['a'] ++ ['b']))))
    ∧ (renderString evA
        (String.mk (['a'] ++ (chLB :: '#' :: 'c' :: '#' :: chRB :: ['b']))) [] 3 3
      = some (.ok (String.mk (['a'] ++ ['b'])))) :=
  moody_c9_empty_regions evA [] ['a'] ['b'] [' '] 3 3
    (by decide) (by decide) (by decide) (by decide) (by decide)

theorem pget_pset_same : ∀ (base : Params) (k : String) (v : Value),
    pget (pset base k v) k = some v
  | [], _, _ => by simp [pset, pget]
  | (k2, v2) :: rest, k, v => by
    by_cases h : k2 = k
    · simp [pset, pget, h]
    · simp only [pset, pget, h, if_false]
      exact pget_pset_same rest k v

/-- C10: the autoescape hook is the reserved key __autoescape__ in the
ordinary variable mapping.  Rendering an interpolation first converts the
evaluated value to a string; the hook is then applied exactly when the key
is bound to a truthy value — an absent key or a falsy binding leaves the
string unescaped — and a bound callable (always truthy) receives the
already-converted string.  Because the hook lives in the variable mapping,
a render-time parameter binds it like any other variable and the defaults
are used unchanged when no parameters override them. -/
theorem moody_c10_autoescape (ev : Evaluator) (st : St) (src : String) (v : Value)
    (hv : ev src st.1 = .ok v) :
    (pget st.1 "__autoescape__" = Option.none →
      exprRender ev st src = .ok (st.1, st.2 ++ [pyStr v]))
    ∧ (∀ a, pget st.1 "__autoescape__" = some a → truthy a = false →
      exprRender ev st src = .ok (st.1, st.2 ++ [pyStr v]))
    ∧ (∀ f, pget st.1 "__autoescape__" = some (.func f) →
      exprRender ev st src = .ok (st.1, st.2 ++ [f (pyStr v)]))
    ∧ (∀ (d : Params) (k : String) (w : Value), pget (pupdate d [(k, w)]) k = some w)
    ∧ (∀ d : Params, pupdate d [] = d) := by
  refine ⟨?_, ?_, ?_, ?_, fun _ => rfl⟩
  · intro hg
    simp [exprRender, hv, hg]
  · intro a hg ht
    simp [exprRender, hv, hg, ht]
  · intro f hg
    simp [exprRender, hv, hg, truthy, callV]
  · intro d k w
    simp only [pupdate, List.foldl_cons, List.foldl_nil]
    exact pget_pset_same d k w

/-- C10, witness: a callable hook bound through the parameters wraps the
interpolated string. -/
theorem moody_c10_witness :
    exprRender evA
        (([("x", .str "s"), ("__autoescape__", .func (fun t => "<" ++ t ++ ">"))],
          []) : St) "x"
      = .ok ([("x", .str "s"), ("__autoescape__", .func (fun t => "<" ++ t ++ ">"))],
          ["<s>"]) :=
  ((moody_c10_autoescape evA
      (([("x", .str "s"), ("__autoescape__", .func (fun t => "<" ++ t ++ ">"))],
        []) : St)
      "x" (.str "s") rfl).2.2.1) (fun t => "<" ++ t ++ ">") rfl

end Moody
